import Mathlib

/-!
Verification of the bosun agent runtime against its specification.

The Rust sources are shallowly embedded: strings are modelled as `List Char`
(all strings relevant to the claims are ASCII, so Rust byte indices and
character indices coincide), machine integers as `Nat`, fallible operations
as `Except` / `Option`.  Each definition mirrors the Rust function it is
named after; the file comments name the source file.
-/

namespace Bosun

/-- Abbreviation turning a string literal into the character list we compute
with.  Rust `&str` values are modelled as `List Char`. -/
def str (s : String) : List Char := s.data

-- ---------------------------------------------------------------------------
-- Capability model (crates/policy/src/capability.rs)
-- ---------------------------------------------------------------------------

/-- `CapabilityKind` from capability.rs: the five capability kinds. -/
inductive CapabilityKind where
  | fsRead
  | fsWrite
  | netHttp
  | exec
  | secretsRead
deriving DecidableEq, Repr

/-- Rust `#[derive(Debug)]` rendering of a `CapabilityKind` variant, as used
by the `format!("{:?} ...")` calls that build denial reasons in policy.rs. -/
def CapabilityKind.debugStr : CapabilityKind → List Char
  | .fsRead => str "FsRead"
  | .fsWrite => str "FsWrite"
  | .netHttp => str "NetHttp"
  | .exec => str "Exec"
  | .secretsRead => str "SecretsRead"

/-- `CapabilityRequest` from capability.rs: a kind with an optional scope. -/
structure CapabilityRequest where
  kind : CapabilityKind
  scope : Option (List Char)
deriving DecidableEq, Repr

/-- `CapabilityRequest::fs_read` constructor from capability.rs. -/
def CapabilityRequest.fs_read (path : List Char) : CapabilityRequest :=
  ⟨.fsRead, some path⟩

/-- `CapabilityRequest::exec` constructor from capability.rs. -/
def CapabilityRequest.mkExec (command : List Char) : CapabilityRequest :=
  ⟨.exec, some command⟩

-- ---------------------------------------------------------------------------
-- Policy (crates/policy/src/policy.rs)
-- ---------------------------------------------------------------------------

/-- `AllowRules` from policy.rs: per-kind allowlists of patterns. -/
structure AllowRules where
  fs_read : List (List Char) := []
  fs_write : List (List Char) := []
  net_http : List (List Char) := []
  exec : List (List Char) := []
  secrets_read : List (List Char) := []
deriving DecidableEq, Repr

/-- `DenyRules` from policy.rs.  The Rust `HashSet<CapabilityKind>` is
modelled as a list queried by membership. -/
structure DenyRules where
  all : List CapabilityKind := []
deriving DecidableEq, Repr

/-- `Policy` from policy.rs. -/
structure Policy where
  allow : AllowRules := {}
  deny : DenyRules := {}
deriving DecidableEq, Repr

/-- `Decision` from policy.rs. -/
inductive Decision where
  | allow
  | deny (reason : List Char)
deriving DecidableEq, Repr

/-- `Policy::check_path_allowed` from policy.rs lines 125-153, for one
pattern of the allowlist.  The branches appear in source order: the
star patterns, the literal `starts_with`, the `"/*"` single-level glob
(note the Rust code strips the final two bytes `"/*"`, slash included,
before the prefix test), and the `"/**"` recursive glob. -/
def patternMatchesPath (pattern path : List Char) : Bool :=
  pattern == str "*" || pattern == str "**"
  || pattern.isPrefixOf path
  || (if (str "/*").isSuffixOf pattern then
        let p := pattern.take (pattern.length - 2)
        p.isPrefixOf path && !((path.drop p.length).contains '/')
      else false)
  || (if (str "/**").isSuffixOf pattern then
        let p := pattern.take (pattern.length - 3)
        p.isPrefixOf path
      else false)

/-- `Policy::check_path_allowed` from policy.rs: no scope means allowed
iff the allowlist is non-empty; otherwise any pattern may match. -/
def checkPathAllowed (allowlist : List (List Char)) (scope : Option (List Char)) : Bool :=
  match scope with
  | none => !allowlist.isEmpty
  | some path => allowlist.any (fun pattern => patternMatchesPath pattern path)

/-- `Policy::check_domain_allowed` from policy.rs: `"*"`, exact match, or
suffix match of `"." ++ pattern`. -/
def checkDomainAllowed (allowlist : List (List Char)) (scope : Option (List Char)) : Bool :=
  match scope with
  | none => !allowlist.isEmpty
  | some domain =>
    allowlist.any (fun allowed =>
      allowed == str "*" || domain == allowed
      || ('.' :: allowed).isSuffixOf domain)

/-- `Policy::check_command_allowed` from policy.rs: `"*"`, exact match, or
prefix match of `pattern ++ " "`. -/
def checkCommandAllowed (allowlist : List (List Char)) (scope : Option (List Char)) : Bool :=
  match scope with
  | none => !allowlist.isEmpty
  | some cmd =>
    allowlist.any (fun allowed =>
      allowed == str "*" || cmd == allowed
      || (allowed ++ [' ']).isPrefixOf cmd)

/-- `Policy::check_exact_allowed` from policy.rs: `"*"` or exact key match. -/
def checkExactAllowed (allowlist : List (List Char)) (scope : Option (List Char)) : Bool :=
  match scope with
  | none => !allowlist.isEmpty
  | some key => allowlist.any (fun a => a == str "*" || a == key)

/-- Reason string of the outright denial in `Policy::check`
(`format!("{:?} is denied by policy", request.kind)`). -/
def denyOutrightReason (kind : CapabilityKind) : List Char :=
  kind.debugStr ++ str " is denied by policy"

/-- Reason string of the allowlist-miss denial in `Policy::check`. -/
def notInAllowlistReason (kind : CapabilityKind) (scope : Option (List Char)) : List Char :=
  kind.debugStr ++ str " not in allowlist" ++
    (match scope with
     | some s => str " (scope: " ++ s ++ str ")"
     | none => [])

/-- `Policy::check` from policy.rs lines 95-123: outright denials first,
then the kind-specific allowlist. -/
def Policy.check (p : Policy) (request : CapabilityRequest) : Decision :=
  if p.deny.all.contains request.kind then
    .deny (denyOutrightReason request.kind)
  else
    let allowed :=
      match request.kind with
      | .fsRead => checkPathAllowed p.allow.fs_read request.scope
      | .fsWrite => checkPathAllowed p.allow.fs_write request.scope
      | .netHttp => checkDomainAllowed p.allow.net_http request.scope
      | .exec => checkCommandAllowed p.allow.exec request.scope
      | .secretsRead => checkExactAllowed p.allow.secrets_read request.scope
    if allowed then .allow else .deny (notInAllowlistReason request.kind request.scope)

/-- `Policy::restrictive` from policy.rs lines 78-92: deny exec, net_http
and secrets_read outright; allow fs_read and fs_write with the single
pattern `"."`. -/
def Policy.restrictive : Policy :=
  { allow := { fs_read := [str "."], fs_write := [str "."] }
    deny := { all := [.exec, .netHttp, .secretsRead] } }

-- ---------------------------------------------------------------------------
-- JSON values (serde_json::Value), kept minimal: the claims treat tool
-- inputs and outputs as opaque payloads.
-- ---------------------------------------------------------------------------

/-- Model of `serde_json::Value`.  Every claim treats JSON payloads as
opaque values compared only for equality (tool inputs and outputs pass
through the runtime unchanged), so the model keeps them abstract as
tokens; the JSON parsing steps of the source are abstract parameters of
the definitions that use them. -/
inductive Json where
  | token (n : Nat)
deriving DecidableEq, Repr

-- ---------------------------------------------------------------------------
-- Event log (crates/storage/src/event.rs and store.rs)
-- ---------------------------------------------------------------------------

/-- `Role` from event.rs. -/
inductive Role where
  | user
  | assistant
  | system
deriving DecidableEq, Repr

/-- `EventKind` from event.rs. -/
inductive EventKind where
  | message (role : Role) (content : List Char)
  | toolCall (name : List Char) (input : Json)
  | toolResult (name : List Char) (output : Json)
  | sessionStart
  | sessionEnd
deriving DecidableEq, Repr

/-- `Event` from event.rs.  UUIDs are modelled as `Nat` (the 128-bit value)
and `DateTime<Utc>` timestamps as `Nat`; every event row the store writes
carries them in the RFC 3339 / hyphenated-hex string forms, whose order
agrees with the numeric order for values produced by one process. -/
structure Event where
  id : Nat
  sessionId : Nat
  timestamp : Nat
  kind : EventKind
deriving DecidableEq, Repr

/-- The SQLite `events` table of store.rs, as the list of rows in insertion
order (the table is append-only; `append` is a single-row `INSERT`). -/
abbrev EventStore := List Event

/-- `EventStore::append` from store.rs lines 79-91: one row insert. -/
def EventStore.append (s : EventStore) (e : Event) : EventStore := s ++ [e]

/-- Comparison used by the `ORDER BY timestamp` clause of `load_session`. -/
def tsLe (a b : Event) : Prop := a.timestamp ≤ b.timestamp

instance : DecidableRel tsLe := fun a b => Nat.decLe a.timestamp b.timestamp

instance : IsTotal Event tsLe := ⟨fun a b => Nat.le_total a.timestamp b.timestamp⟩

instance : IsTrans Event tsLe := ⟨fun _ _ _ h₁ h₂ => Nat.le_trans h₁ h₂⟩

/-- The ordering the specification claims for the log: by timestamp, ties
broken by id. -/
def tsThenIdLe (a b : Event) : Prop :=
  a.timestamp < b.timestamp ∨ (a.timestamp = b.timestamp ∧ a.id ≤ b.id)

instance : DecidableRel tsThenIdLe := fun a b => by
  unfold tsThenIdLe; infer_instance

/-- `EventStore::load_session` from store.rs lines 94-111: selects the rows
of the session and orders them with `ORDER BY timestamp` (and by nothing
else).  SQLite returns rows with equal sort keys in table-scan order, which
for this append-only table is insertion order; a stable sort over the rows
in insertion order models that. -/
def EventStore.load_session (s : EventStore) (sessionId : Nat) : List Event :=
  List.insertionSort tsLe (s.filter (fun e => e.sessionId == sessionId))

-- ---------------------------------------------------------------------------
-- Configuration (crates/cli/src/config.rs)
-- ---------------------------------------------------------------------------

/-- `AnthropicAuth` as built by `Config::auth`. -/
inductive AnthropicAuth where
  | apiKey (key : List Char)
  | claudeCodeOauth (token : List Char)
deriving DecidableEq, Repr

/-- `ConfigError` from config.rs (the variants `Config::auth` can return). -/
inductive ConfigError where
  | missingAuth
  | ambiguousAuth
deriving DecidableEq, Repr

/-- `Config::auth` from config.rs lines 72-79: requires exactly one of
`api_key` and `oauth_token`. -/
def Config.auth (api_key oauth_token : Option (List Char)) :
    Except ConfigError AnthropicAuth :=
  match api_key, oauth_token with
  | some key, none => .ok (.apiKey key)
  | none, some token => .ok (.claudeCodeOauth token)
  | some _, some _ => .error .ambiguousAuth
  | none, none => .error .missingAuth

-- ---------------------------------------------------------------------------
-- MCP response reading (crates/mcp/src/server.rs)
-- ---------------------------------------------------------------------------

/-- `MAX_OUTPUT_SIZE` from server.rs line 24. -/
def MAX_OUTPUT_SIZE : Nat := 1024 * 1024

/-- The MCP error variants `Server::read_response` can produce
(crates/mcp/src/error.rs). -/
inductive McpReadError where
  | serverExited
  | outputTooLarge (size max : Nat)
  | deserialize
deriving DecidableEq, Repr

/-- `Server::read_response` from server.rs lines 244-263.  The input models
what `read_line` yields from the child's stdout: `none` for end of file
before any bytes, `some line` for a full line (whose `List Char` length is
its byte length; JSON-RPC lines are ASCII).  `parse` models
`serde_json::from_str::<JsonRpcResponse>`, abstract here, with `R` the
response type. -/
def readResponse {R : Type} (parse : List Char → Option R) (input : Option (List Char)) :
    Except McpReadError R :=
  match input with
  | none => .error .serverExited
  | some line =>
    if line.length > MAX_OUTPUT_SIZE then
      .error (.outputTooLarge line.length MAX_OUTPUT_SIZE)
    else
      match parse line with
      | some r => .ok r
      | none => .error .deserialize

-- ---------------------------------------------------------------------------
-- Tool host (crates/runtime/src/tools.rs) and the agentic loop
-- (crates/runtime/src/session.rs)
-- ---------------------------------------------------------------------------

/-- `ToolContent` from crates/mcp/src/protocol.rs. -/
inductive ToolContent where
  | text (t : List Char)
  | image (data mimeType : List Char)
  | resource (uri : List Char) (mimeType text : Option (List Char))
deriving DecidableEq, Repr

/-- `ToolContent::as_text` from protocol.rs. -/
def ToolContent.asText : ToolContent → Option (List Char)
  | .text t => some t
  | _ => none

/-- `CallToolResult` from protocol.rs. -/
structure CallToolResult where
  content : List ToolContent
  is_error : Bool
deriving DecidableEq, Repr

/-- The runtime error variants reachable from the session loop
(crates/runtime/src/error.rs with the `Tool` variant used by tools.rs).
Each carries the string its `Display` implementation interpolates. -/
inductive RtError where
  | invalidState (msg : List Char)
  | capabilityDenied (reason : List Char)
  | tool (msg : List Char)
deriving DecidableEq, Repr

/-- The `Display` rendering of a runtime error, as interpolated by
`format!("Error: {}", e)` in `Session::execute_tool_call`.
`CapabilityDenied` renders as `capability denied: {0}` (error.rs); the
`Tool` variant renders as `tool error: {0}`. -/
def RtError.render : RtError → List Char
  | .invalidState m => str "invalid state: " ++ m
  | .capabilityDenied r => str "capability denied: " ++ r
  | .tool m => str "tool error: " ++ m

/-- The parsed tool call of session.rs (`struct ToolCall {name, args}`). -/
structure ToolCallP where
  name : List Char
  args : Option Json
deriving DecidableEq, Repr

/-- `tool_capability` from tools.rs lines 167-173: every tool call is
treated as an exec capability on the tool's name; the params are unused. -/
def toolCapability (name : List Char) (_params : Option Json) : CapabilityRequest :=
  ⟨.exec, some name⟩

/-- The environment a session runs in: the abstract collaborators of the
loop.  `parse` models `serde_json::from_str` on the delimited span plus the
extraction of the string `"name"` field and the optional `"args"` field
(`extract_tool_call` lines 182-186: `some` exactly when the span is valid
JSON whose `"name"` field is a string).  `script` models the backend: the
text of the model response returned by the n-th `client.send` call of the
turn.  `registered` and `server` model the tool host's registry and the
underlying MCP servers (`server` returns the `Display` string of the MCP
error on failure). -/
structure ChatEnv where
  parse : List Char → Option ToolCallP
  script : Nat → List Char
  registered : List (List Char)
  server : List Char → Option Json → Except (List Char) CallToolResult
  policy : Policy

/-- `ToolHost::call_tool` from tools.rs lines 106-138: look the tool up
(`Error::Tool("tool not found: …")` when absent), check the capability
policy (denial returns `Error::CapabilityDenied` without touching the
server), then invoke the server, wrapping its errors as
`Error::Tool("tool call failed: …")`.  The second component records
whether the underlying server was invoked. -/
def callTool (env : ChatEnv) (name : List Char) (params : Option Json) :
    Except RtError CallToolResult × Bool :=
  if env.registered.contains name then
    match env.policy.check (toolCapability name params) with
    | .allow =>
      match env.server name params with
      | .ok r => (.ok r, true)
      | .error e => (.error (.tool (str "tool call failed: " ++ e)), true)
    | .deny reason => (.error (.capabilityDenied reason), false)
  else
    (.error (.tool (str "tool not found: " ++ name)), false)

/-- `Session::execute_tool_call` from session.rs lines 191-220: run the
tool through the host and render the outcome as a string — the text
contents joined by newlines on success, `"Error: {e}"` on failure.  This
function never propagates an error to the loop. -/
def executeToolCall (env : ChatEnv) (tc : ToolCallP) : List Char × Bool :=
  match callTool env tc.name tc.args with
  | (.ok r, invoked) =>
    (List.intercalate (str "\n") (r.content.filterMap ToolContent.asText), invoked)
  | (.error e, invoked) => (str "Error: " ++ RtError.render e, invoked)

/-- `TOOL_CALL_START` from session.rs line 16. -/
def TOOL_CALL_START : List Char := str "<tool_call>"

/-- `TOOL_CALL_END` from session.rs line 17. -/
def TOOL_CALL_END : List Char := str "</tool_call>"

/-- Rust `str::find`: index of the first occurrence of `needle` in `hay`
(byte index; the strings involved are ASCII so character index agrees). -/
def findSub (hay needle : List Char) : Option Nat :=
  if needle.isPrefixOf hay then some 0
  else
    match hay with
    | [] => none
    | _ :: t => (findSub t needle).map (· + 1)

/-- Rust `str::trim`: strip leading and trailing whitespace. -/
def trimList (l : List Char) : List Char :=
  ((l.dropWhile Char.isWhitespace).reverse.dropWhile Char.isWhitespace).reverse

/-- The span `&text[start + TOOL_CALL_START.len()..end]` of session.rs
line 181. -/
def spanSlice (text : List Char) (start e : Nat) : List Char :=
  (text.drop (start + TOOL_CALL_START.length)).take (e - (start + TOOL_CALL_START.length))

/-- `Session::extract_tool_call` from session.rs lines 172-188: find the
two markers, require the end marker strictly after the start marker, trim
the span between them and parse it (via the abstract `parse`). -/
def extractToolCall (parse : List Char → Option ToolCallP) (text : List Char) :
    Option ToolCallP :=
  match findSub text TOOL_CALL_START with
  | none => none
  | some start =>
    match findSub text TOOL_CALL_END with
    | none => none
    | some e =>
      if e ≤ start then none
      else parse (trimList (spanSlice text start e))

/-- `MAX_TOOL_ITERATIONS` from session.rs line 13. -/
def MAX_TOOL_ITERATIONS : Nat := 10

/-- A message of the session history (`llm::Message`, always built through
`Message::text` in session.rs). -/
structure Message where
  role : Role
  content : List Char
deriving DecidableEq, Repr

/-- The event kinds session.rs appends during a turn (the session
generation of `EventKind`: `Message`, `ToolRequested`, `ToolSucceeded`,
`ToolFailed`). -/
inductive SessionEvent where
  | message (role : Role) (content : List Char)
  | toolRequested
  | toolSucceeded
  | toolFailed
deriving DecidableEq, Repr

deriving instance DecidableEq for Except

/-- Everything observable about one `Session::chat` call: its return
value, the message history it leaves behind, the events it appended, the
number of `client.send` calls it made, and the number of times an
underlying tool server was invoked. -/
structure ChatOut where
  result : Except RtError (List Char)
  messages : List Message
  events : List SessionEvent
  modelCalls : Nat
  serverCalls : Nat
deriving DecidableEq, Repr

/-- The events `execute_tool_call` appends around an outcome:
`ToolRequested` before the host call, then `ToolSucceeded` or
`ToolFailed`. -/
def toolEvents (env : ChatEnv) (tc : ToolCallP) : List SessionEvent :=
  match callTool env tc.name tc.args with
  | (.ok _, _) => [.toolRequested, .toolSucceeded]
  | (.error _, _) => [.toolRequested, .toolFailed]

/-- The `loop` of `Session::chat`, session.rs lines 133-169.  `remaining`
counts the iterations still permitted (`MAX_TOOL_ITERATIONS` minus the
iterations already taken): the Rust code increments `iterations` at the
top of the loop and bails out with `InvalidState` when it would exceed
the maximum, before calling the backend.  When the response holds a tool
call the tool is executed, the assistant message and a user message
wrapping the result in `<tool_result>` tags are pushed, and the loop
repeats; otherwise the assistant message is pushed, a `Message` event is
appended and the text is returned. -/
def chatLoop (env : ChatEnv) (step remaining : Nat) (msgs : List Message)
    (evs : List SessionEvent) (mc sc : Nat) : ChatOut :=
  match remaining with
  | 0 =>
    ⟨.error (.invalidState (str "exceeded maximum tool iterations")), msgs, evs, mc, sc⟩
  | r + 1 =>
    let text := env.script step
    match extractToolCall env.parse text with
    | some tc =>
      let res := executeToolCall env tc
      chatLoop env (step + 1) r
        (msgs ++ [⟨.assistant, text⟩,
                  ⟨.user, str "<tool_result>\n" ++ res.1 ++ str "\n</tool_result>"⟩])
        (evs ++ toolEvents env tc)
        (mc + 1) (sc + if res.2 then 1 else 0)
    | none =>
      ⟨.ok text, msgs ++ [⟨.assistant, text⟩],
        evs ++ [.message .assistant text], mc + 1, sc⟩

/-- `Session::chat` from session.rs lines 123-170: push the user message,
append its event, then run the tool loop.  The event store is modelled as
infallible (storage failures abort the turn and are outside every claim
considered here). -/
def chat (env : ChatEnv) (userInput : List Char) : ChatOut :=
  chatLoop env 0 MAX_TOOL_ITERATIONS
    [⟨.user, userInput⟩] [.message .user userInput] 0 0

-- ---------------------------------------------------------------------------
-- SessionId string form (crates/storage/src/event.rs lines 44-56)
-- ---------------------------------------------------------------------------

/-- Lowercase hex digit for a value below 16, as produced by the `uuid`
crate's hyphenated `Display` that `SessionId`'s `Display` delegates to. -/
def hexChar (d : Nat) : Char :=
  if d < 10 then Char.ofNat (48 + d) else Char.ofNat (87 + d)

/-- Value of a hex digit character; the `uuid` parser accepts both cases. -/
def hexVal (c : Char) : Option Nat :=
  if '0' ≤ c ∧ c ≤ '9' then some (c.toNat - 48)
  else if 'a' ≤ c ∧ c ≤ 'f' then some (c.toNat - 87)
  else if 'A' ≤ c ∧ c ≤ 'F' then some (c.toNat - 55)
  else none

/-- Big-endian hex rendering of `n` on exactly `k` digits. -/
def toHex (n : Nat) : Nat → List Char
  | 0 => []
  | k + 1 => hexChar (n / 16 ^ k) :: toHex (n % 16 ^ k) k

/-- Read exactly `k` hex digits, extending the accumulator; returns the
value and the remaining characters. -/
def readHex (acc : Nat) : Nat → List Char → Option (Nat × List Char)
  | 0, cs => some (acc, cs)
  | _ + 1, [] => none
  | k + 1, c :: cs =>
    match hexVal c with
    | some v => readHex (acc * 16 + v) k cs
    | none => none

/-- Consume one `'-'`. -/
def expectDash : List Char → Option (List Char)
  | '-' :: cs => some cs
  | _ => none

/-- `SessionId`'s `Display` (event.rs lines 44-48), which prints the inner
`Uuid`: the 32 hex digits of the 128-bit value in the hyphenated
8-4-4-4-12 lowercase form. -/
def displayUuid (n : Nat) : List Char :=
  toHex (n / 16 ^ 24) 8 ++ '-' ::
    (toHex (n / 16 ^ 20 % 16 ^ 4) 4 ++ '-' ::
      (toHex (n / 16 ^ 16 % 16 ^ 4) 4 ++ '-' ::
        (toHex (n / 16 ^ 12 % 16 ^ 4) 4 ++ '-' ::
          toHex (n % 16 ^ 12) 12)))

/-- Require the parsed value to have consumed the whole input. -/
def exactly (p : Option (Nat × List Char)) : Option Nat :=
  p.bind fun q => if q.2.isEmpty then some q.1 else none

/-- Read the five hyphen-separated hex groups of sizes 8, 4, 4, 4 and 12
(the body shared by the hyphenated, braced and urn forms of the `uuid`
crate's parser), returning the value and the remaining characters. -/
def readHyphenated (cs : List Char) : Option (Nat × List Char) :=
  (readHex 0 8 cs).bind fun p₁ =>
  (expectDash p₁.2).bind fun r₁ =>
  (readHex p₁.1 4 r₁).bind fun p₂ =>
  (expectDash p₂.2).bind fun r₂ =>
  (readHex p₂.1 4 r₂).bind fun p₃ =>
  (expectDash p₃.2).bind fun r₃ =>
  (readHex p₃.1 4 r₃).bind fun p₄ =>
  (expectDash p₄.2).bind fun r₄ =>
  readHex p₄.1 12 r₄

/-- The braced form `\x7b<hyphenated>\x7d` accepted by the `uuid` parser. -/
def parseBraced (cs : List Char) : Option Nat :=
  match cs with
  | '{' :: rest =>
    (readHyphenated rest).bind fun p =>
      if p.2 = ['}'] then some p.1 else none
  | _ => none

/-- The literal prefix of the urn form accepted by the `uuid` parser. -/
def urnPrefix : List Char := str "urn:uuid:"

/-- The urn form `urn:uuid:<hyphenated>` accepted by the `uuid` parser
(the prefix is matched byte-for-byte in lowercase). -/
def parseUrn (cs : List Char) : Option Nat :=
  if urnPrefix.isPrefixOf cs then exactly (readHyphenated (cs.drop 9)) else none

/-- `SessionId`'s `FromStr` (event.rs lines 50-56), which delegates to
`uuid::Uuid::from_str`.  The `uuid` crate's parser accepts exactly four
input shapes: the simple form (32 hex digits), the hyphenated form
(hex groups of sizes 8, 4, 4, 4 and 12 separated by `'-'`), the braced
hyphenated form, and the lowercase-prefixed `urn:uuid:` hyphenated form;
hex digits may be either case.  Each alternative pins a distinct total
length (32, 36, 38, 45), so trying them in order is equivalent to the
crate's dispatch on input length.  Any other string is an error
(`none`). -/
def parseUuid (cs : List Char) : Option Nat :=
  match exactly (readHex 0 32 cs) with
  | some v => some v
  | none =>
    match exactly (readHyphenated cs) with
    | some v => some v
    | none =>
      match parseBraced cs with
      | some v => some v
      | none => parseUrn cs

/-- The shape of a hyphenated UUID string: five all-hex groups of sizes
8, 4, 4, 4 and 12 joined by `'-'`. -/
def IsUuidShape (s : List Char) : Prop :=
  ∃ a b c d e : List Char,
    s = a ++ '-' :: (b ++ '-' :: (c ++ '-' :: (d ++ '-' :: e))) ∧
    a.length = 8 ∧ b.length = 4 ∧ c.length = 4 ∧ d.length = 4 ∧ e.length = 12 ∧
    ∀ x ∈ a ++ b ++ c ++ d ++ e, (hexVal x).isSome

/-- The shape of a simple UUID string: 32 hex digits. -/
def IsSimpleShape (s : List Char) : Prop :=
  s.length = 32 ∧ ∀ c ∈ s, (hexVal c).isSome = true

/-- The shape of a braced UUID string. -/
def IsBracedShape (s : List Char) : Prop :=
  ∃ t, s = '{' :: (t ++ ['}']) ∧ IsUuidShape t

/-- The shape of an urn UUID string. -/
def IsUrnShape (s : List Char) : Prop :=
  ∃ t, s = urnPrefix ++ t ∧ IsUuidShape t

/-- A string the `uuid` parser accepts: one of its four input shapes. -/
def IsUuidString (s : List Char) : Prop :=
  IsSimpleShape s ∨ IsUuidShape s ∨ IsBracedShape s ∨ IsUrnShape s

-- ---------------------------------------------------------------------------
-- Concrete instances used by counterexamples and witnesses
-- ---------------------------------------------------------------------------

/-- A model response carrying one tool call, in the format
`build_system_prompt` instructs the model to use. -/
def toolText : List Char := str "<tool_call>\x7b\"name\": \"t\"\x7d</tool_call>"

/-- The delimited span of `toolText`. -/
def spanJson : List Char := str "\x7b\"name\": \"t\"\x7d"

/-- A concrete stand-in for `serde_json::from_str` plus field extraction,
truthful on every span it is applied to in the concrete environments
below: the span of `toolText` is valid JSON whose `"name"` field is the
string `"t"` and which has no `"args"` field. -/
def parseEx (s : List Char) : Option ToolCallP :=
  if s == spanJson then some ⟨str "t", none⟩ else none

/-- A backend that answers every model call with a tool call. -/
def envLoop : ChatEnv :=
  { parse := parseEx
    script := fun _ => toolText
    registered := []
    server := fun _ _ => .error (str "unused")
    policy := {} }

/-- A backend that answers the first eight model calls with a tool call
and the ninth with a plain answer. -/
def envC1 : ChatEnv :=
  { parse := parseEx
    script := fun i => if i < 8 then toolText else str "done"
    registered := []
    server := fun _ _ => .error (str "unused")
    policy := {} }

/-- A tool host with the tool `t` registered, under a policy that denies
every exec capability outright. -/
def envDeny : ChatEnv :=
  { parse := parseEx
    script := fun _ => toolText
    registered := [str "t"]
    server := fun _ _ => .ok ⟨[.text (str "ok")], false⟩
    policy := { deny := { all := [.exec] } } }

/-- A backend whose response contains no tool-call markup at all. -/
def envPlain : ChatEnv :=
  { parse := parseEx
    script := fun _ => str "hello"
    registered := []
    server := fun _ _ => .error (str "unused")
    policy := {} }

/-- An event appended first, with the larger id. -/
def evA : Event := { id := 5, sessionId := 1, timestamp := 100, kind := .sessionStart }

/-- An event appended second, with the same timestamp and a smaller id. -/
def evB : Event := { id := 3, sessionId := 1, timestamp := 100, kind := .sessionEnd }

/-- A store holding two same-timestamp events of one session, appended in
the order `evA`, `evB`. -/
def storeTie : EventStore := (EventStore.append (EventStore.append [] evA) evB)

end Bosun

namespace Bosun

-- Sanity examples mirroring the unit tests in policy.rs.

example : Policy.check Policy.restrictive (CapabilityRequest.mkExec (str "rm -rf /"))
    = .deny (denyOutrightReason .exec) := by decide

example : Policy.check Policy.restrictive (CapabilityRequest.fs_read (str "./src/main.rs"))
    = .allow := by decide

example : Policy.check
    { allow := { fs_read := [str "./", str "/tmp/**"], net_http := [str "api.anthropic.com"] }
      deny := { all := [.exec] } }
    ⟨.fsRead, some (str "/tmp/bar/baz")⟩ = .allow := by decide

-- ---------------------------------------------------------------------------
-- C3: Policy.check is deny-overrides
-- ---------------------------------------------------------------------------

/-- C3: for every policy and every capability request whose kind is a
member of `deny.all`, `Policy::check` returns `Deny` (with the outright
denial reason), regardless of the kind's allowlist and of the request's
scope. -/
theorem check_deny_overrides (p : Policy) (request : CapabilityRequest)
    (h : p.deny.all.contains request.kind = true) :
    p.check request = .deny (denyOutrightReason request.kind) := by
  simp only [Policy.check, h, if_true]

/-- Witness for C3: a policy whose exec allowlist even holds `"*"` still
denies an exec request once exec is in `deny.all`. -/
theorem check_deny_overrides_witness :
    ({ allow := { exec := [str "*"] }, deny := { all := [.exec] } } : Policy).deny.all.contains
        CapabilityKind.exec = true ∧
    ({ allow := { exec := [str "*"] }, deny := { all := [.exec] } } : Policy).check
        ⟨.exec, some (str "ls")⟩ = .deny (denyOutrightReason .exec) :=
  ⟨by decide, check_deny_overrides _ ⟨.exec, some (str "ls")⟩ (by decide)⟩

-- ---------------------------------------------------------------------------
-- C4: the fs path allowlist matcher (code bug at the "/*" shape)
-- ---------------------------------------------------------------------------

/-- C4: evaluation of the path matcher at the failing input.  The code's
own comment says `foo/*` matches `foo/bar` (and the claim's single-level
reading agrees), but `check_path_allowed` strips the final two bytes
`"/*"` — slash included — so the remainder of `"foo/bar"` after the
prefix `"foo"` is `"/bar"`, which contains `'/'`, and no branch matches:
the request is denied.  Meanwhile the literal `starts_with(pattern)`
branch, applied to every pattern shape, makes `"foo/*"` match the
multi-level path `"foo/*/x"`, which the single-level rule excludes. -/
theorem check_path_single_level_bug :
    checkPathAllowed [str "foo/*"] (some (str "foo/bar")) = false ∧
    Policy.check { allow := { fs_read := [str "foo/*"] } } ⟨.fsRead, some (str "foo/bar")⟩
      = .deny (notInAllowlistReason .fsRead (some (str "foo/bar"))) ∧
    checkPathAllowed [str "foo/*"] (some (str "foo/*/x")) = true ∧
    checkPathAllowed [str "foo/*"] (some (str "foobar")) = true := by
  refine ⟨by decide, by decide, by decide, by decide⟩

-- ---------------------------------------------------------------------------
-- C5: the default restrictive policy (code bug at the fs scope)
-- ---------------------------------------------------------------------------

/-- C5: evaluation of the restrictive policy.  Exec, net_http and
secrets_read are denied outright as claimed, but the fs_read/fs_write
allowlist pattern `"."` is consulted with a literal `starts_with` check,
so the parent-directory path `"../secret"` — outside the current working
directory — is allowed, while the in-directory relative path
`"src/main.rs"` is denied; both contradict the claim's
"within the current working directory" (and the code's own
`// Current dir only` comment). -/
theorem restrictive_policy_fs_scope_bug :
    Policy.check Policy.restrictive ⟨.exec, some (str "ls")⟩
      = .deny (denyOutrightReason .exec) ∧
    Policy.check Policy.restrictive ⟨.netHttp, some (str "example.com")⟩
      = .deny (denyOutrightReason .netHttp) ∧
    Policy.check Policy.restrictive ⟨.secretsRead, some (str "KEY")⟩
      = .deny (denyOutrightReason .secretsRead) ∧
    Policy.check Policy.restrictive ⟨.fsRead, some (str "../secret")⟩ = .allow ∧
    Policy.check Policy.restrictive ⟨.fsWrite, some (str "../secret")⟩ = .allow ∧
    Policy.check Policy.restrictive ⟨.fsRead, some (str "src/main.rs")⟩
      = .deny (notInAllowlistReason .fsRead (some (str "src/main.rs"))) := by
  refine ⟨by decide, by decide, by decide, by decide, by decide, by decide⟩

-- ---------------------------------------------------------------------------
-- C6: MCP response reading bounds
-- ---------------------------------------------------------------------------

/-- C6: `Server::read_response` fails with `OutputTooLarge` carrying the
actual size and the 1048576-byte maximum when the line exceeds the limit,
fails with `ServerExited` on end-of-file before any bytes, and otherwise
hands the line to the JSON parser. -/
theorem read_response_bounds {R : Type} (parse : List Char → Option R) (line : List Char) :
    (MAX_OUTPUT_SIZE < line.length →
      readResponse parse (some line) = .error (.outputTooLarge line.length 1048576)) ∧
    readResponse parse none = (.error .serverExited : Except McpReadError R) ∧
    (line.length ≤ MAX_OUTPUT_SIZE →
      readResponse parse (some line) =
        match parse line with
        | some r => .ok r
        | none => .error .deserialize) := by
  refine ⟨fun h => ?_, rfl, fun h => ?_⟩
  · simp only [readResponse, if_pos h]
    norm_num [MAX_OUTPUT_SIZE]
  · simp only [readResponse, if_neg (Nat.not_lt.mpr h)]

/-- Witness for C6: a 1048577-byte line is rejected as too large with its
size reported, and immediate end-of-file yields `ServerExited`. -/
theorem read_response_bounds_witness :
    MAX_OUTPUT_SIZE < (List.replicate 1048577 'a').length ∧
    readResponse (fun _ => (none : Option Unit)) (some (List.replicate 1048577 'a')) =
      .error (.outputTooLarge (List.replicate 1048577 'a').length 1048576) ∧
    readResponse (fun _ => (none : Option Unit)) (none : Option (List Char)) =
      (.error .serverExited : Except McpReadError Unit) := by
  have hlen : MAX_OUTPUT_SIZE < (List.replicate 1048577 'a').length := by
    rw [List.length_replicate]
    norm_num [MAX_OUTPUT_SIZE]
  exact ⟨hlen, (read_response_bounds (fun _ => (none : Option Unit)) _).1 hlen,
    (read_response_bounds (fun _ => (none : Option Unit)) []).2.1⟩

-- ---------------------------------------------------------------------------
-- C8: authentication configuration
-- ---------------------------------------------------------------------------

/-- C8: `Config::auth` returns the API-key mode when only `api_key` is
set, the OAuth mode when only `oauth_token` is set, `AmbiguousAuth` when
both are set and `MissingAuth` when neither is. -/
theorem config_auth_exactly_one (key token : List Char) :
    Config.auth (some key) none = .ok (.apiKey key) ∧
    Config.auth none (some token) = .ok (.claudeCodeOauth token) ∧
    Config.auth (some key) (some token) = .error .ambiguousAuth ∧
    Config.auth none none = .error .missingAuth :=
  ⟨rfl, rfl, rfl, rfl⟩

-- ---------------------------------------------------------------------------
-- C7: event log ordering (corrected: no id tie-break in the code)
-- ---------------------------------------------------------------------------

/-- Counterexample for C7: the `load_session` query orders by timestamp
only, so two same-timestamp events come back in insertion order, not in
id order — here the first-appended event has the larger id, and the
result violates the claimed timestamp-then-id ordering. -/
theorem load_session_ignores_id_on_ties :
    EventStore.load_session storeTie 1 = [evA, evB] ∧
    evA.timestamp = evB.timestamp ∧ evB.id < evA.id ∧
    ¬ List.Sorted tsThenIdLe (EventStore.load_session storeTie 1) := by
  have hval : EventStore.load_session storeTie 1 = [evA, evB] := by decide
  refine ⟨hval, by decide, by decide, ?_⟩
  intro hs
  rw [hval] at hs
  have h : tsThenIdLe evA evB := List.rel_of_sorted_cons hs evB (List.mem_cons_self _ _)
  exact absurd h (by decide)

/-- C7 as amended: `load_session` returns exactly the events appended for
the session — a permutation of the session's rows, none modified or
dropped — sorted by timestamp; no tie-break by id is applied, so the
relative order of events with equal timestamps is not guaranteed (the
counterexample above shows it can disagree with the id order). -/
theorem load_session_sorted_perm (s : EventStore) (sid : Nat) :
    (EventStore.load_session s sid).Perm (s.filter (fun e => e.sessionId == sid)) ∧
    List.Sorted tsLe (EventStore.load_session s sid) :=
  ⟨List.perm_insertionSort tsLe _, List.sorted_insertionSort tsLe _⟩

-- ---------------------------------------------------------------------------
-- The agentic loop: shared unfolding and induction lemmas
-- ---------------------------------------------------------------------------

/-- One tool-call iteration of the loop, unfolded. -/
theorem chatLoop_tool_step (env : ChatEnv) (step r : Nat) (msgs : List Message)
    (evs : List SessionEvent) (mc sc : Nat) (tc : ToolCallP)
    (h : extractToolCall env.parse (env.script step) = some tc) :
    chatLoop env step (r + 1) msgs evs mc sc =
      chatLoop env (step + 1) r
        (msgs ++ [⟨.assistant, env.script step⟩,
                  ⟨.user, str "<tool_result>\n" ++ (executeToolCall env tc).1
                    ++ str "\n</tool_result>"⟩])
        (evs ++ toolEvents env tc) (mc + 1)
        (sc + if (executeToolCall env tc).2 then 1 else 0) := by
  simp only [chatLoop, h]

/-- The terminal iteration of the loop, unfolded. -/
theorem chatLoop_final_step (env : ChatEnv) (step r : Nat) (msgs : List Message)
    (evs : List SessionEvent) (mc sc : Nat)
    (h : extractToolCall env.parse (env.script step) = none) :
    chatLoop env step (r + 1) msgs evs mc sc =
      ⟨.ok (env.script step), msgs ++ [⟨.assistant, env.script step⟩],
        evs ++ [.message .assistant (env.script step)], mc + 1, sc⟩ := by
  simp only [chatLoop, h]

/-- If every permitted iteration yields a tool call, the loop exhausts its
budget, returns `InvalidState` and makes exactly `r` model calls. -/
theorem chatLoop_all_tool_steps (env : ChatEnv) (r : Nat) :
    ∀ (step : Nat) (msgs : List Message) (evs : List SessionEvent) (mc sc : Nat),
      (∀ i, i < r → (extractToolCall env.parse (env.script (step + i))).isSome = true) →
      (chatLoop env step r msgs evs mc sc).result
          = .error (.invalidState (str "exceeded maximum tool iterations")) ∧
      (chatLoop env step r msgs evs mc sc).modelCalls = mc + r := by
  induction r with
  | zero =>
    intro step msgs evs mc sc _
    exact ⟨rfl, rfl⟩
  | succ r ih =>
    intro step msgs evs mc sc h
    have h0 : (extractToolCall env.parse (env.script step)).isSome = true := by
      have := h 0 (Nat.succ_pos r)
      simpa using this
    obtain ⟨tc, htc⟩ := Option.isSome_iff_exists.mp h0
    rw [chatLoop_tool_step env step r msgs evs mc sc tc htc]
    have hnext : ∀ i, i < r →
        (extractToolCall env.parse (env.script (step + 1 + i))).isSome = true := by
      intro i hi
      have heq : step + 1 + i = step + (i + 1) := by omega
      rw [heq]
      exact h (i + 1) (by omega)
    have key := ih (step + 1)
      (msgs ++ [⟨.assistant, env.script step⟩,
                ⟨.user, str "<tool_result>\n" ++ (executeToolCall env tc).1
                  ++ str "\n</tool_result>"⟩])
      (evs ++ toolEvents env tc) (mc + 1)
      (sc + if (executeToolCall env tc).2 then 1 else 0) hnext
    exact ⟨key.1, by rw [key.2]; omega⟩

/-- If the model first stops requesting tools at iteration `k` (0-based)
and the budget allows it, the loop returns that response's text after
`k + 1` model calls. -/
theorem chatLoop_stops_at (env : ChatEnv) (k : Nat) :
    ∀ (step r : Nat) (msgs : List Message) (evs : List SessionEvent) (mc sc : Nat),
      k < r →
      extractToolCall env.parse (env.script (step + k)) = none →
      (∀ i, i < k → (extractToolCall env.parse (env.script (step + i))).isSome = true) →
      (chatLoop env step r msgs evs mc sc).result = .ok (env.script (step + k)) ∧
      (chatLoop env step r msgs evs mc sc).modelCalls = mc + k + 1 := by
  induction k with
  | zero =>
    intro step r msgs evs mc sc hr hnone _
    obtain ⟨r', rfl⟩ : ∃ r', r = r' + 1 := ⟨r - 1, by omega⟩
    rw [Nat.add_zero] at hnone
    rw [chatLoop_final_step env step r' msgs evs mc sc hnone]
    exact ⟨by simp, rfl⟩
  | succ k ih =>
    intro step r msgs evs mc sc hr hnone hall
    obtain ⟨r', rfl⟩ : ∃ r', r = r' + 1 := ⟨r - 1, by omega⟩
    have h0 : (extractToolCall env.parse (env.script step)).isSome = true := by
      have := hall 0 (Nat.succ_pos k)
      simpa using this
    obtain ⟨tc, htc⟩ := Option.isSome_iff_exists.mp h0
    rw [chatLoop_tool_step env step r' msgs evs mc sc tc htc]
    have hshift : step + 1 + k = step + (k + 1) := by omega
    have key := ih (step + 1) r'
      (msgs ++ [⟨.assistant, env.script step⟩,
                ⟨.user, str "<tool_result>\n" ++ (executeToolCall env tc).1
                  ++ str "\n</tool_result>"⟩])
      (evs ++ toolEvents env tc) (mc + 1)
      (sc + if (executeToolCall env tc).2 then 1 else 0) (by omega)
      (by rw [hshift]; exact hnone)
      (by
        intro i hi
        have heq : step + 1 + i = step + (i + 1) := by omega
        rw [heq]
        exact hall (i + 1) (by omega))
    refine ⟨?_, by rw [key.2]; omega⟩
    rw [key.1, hshift]

/-- The loop's result is always either the `InvalidState` budget error or
a successful text: no other error ever escapes it. -/
theorem chatLoop_result_shape (env : ChatEnv) (r : Nat) :
    ∀ (step : Nat) (msgs : List Message) (evs : List SessionEvent) (mc sc : Nat),
      (chatLoop env step r msgs evs mc sc).result
          = .error (.invalidState (str "exceeded maximum tool iterations")) ∨
      ∃ t, (chatLoop env step r msgs evs mc sc).result = .ok t := by
  induction r with
  | zero =>
    intro step msgs evs mc sc
    exact .inl rfl
  | succ r ih =>
    intro step msgs evs mc sc
    cases htc : extractToolCall env.parse (env.script step) with
    | none =>
      rw [chatLoop_final_step env step r msgs evs mc sc htc]
      exact .inr ⟨env.script step, rfl⟩
    | some tc =>
      rw [chatLoop_tool_step env step r msgs evs mc sc tc htc]
      exact ih (step + 1) _ _ (mc + 1) _

-- ---------------------------------------------------------------------------
-- C1: the loop bound (corrected: the ceiling is 10, not 8)
-- ---------------------------------------------------------------------------

/-- Counterexample for C1: with a backend producing a tool call on each of
the first 8 iterations and a plain answer on the 9th, the turn does not
fail with `InvalidState` after 8 iterations — it makes a 9th model call
and returns that answer, because `MAX_TOOL_ITERATIONS` is 10. -/
theorem chat_continues_past_eight :
    (chat envC1 (str "hi")).result = .ok (str "done") ∧
    (chat envC1 (str "hi")).modelCalls = 9 := by
  constructor <;> decide

/-- C1 as amended: the agentic loop performs at most
`MAX_TOOL_ITERATIONS = 10` model-then-tools iterations per turn.  If the
model's response contains a tool call on each of the first 10 iterations
the turn fails with `InvalidState` after exactly 10 model calls — no 11th
is made; and a turn in which the model first stops requesting tools at
iteration `k < 10` returns that response's text normally after `k + 1`
model calls. -/
theorem chat_loop_bound (env : ChatEnv) (input : List Char) :
    ((∀ i, i < MAX_TOOL_ITERATIONS → (extractToolCall env.parse (env.script i)).isSome = true) →
      (chat env input).result = .error (.invalidState (str "exceeded maximum tool iterations")) ∧
      (chat env input).modelCalls = MAX_TOOL_ITERATIONS) ∧
    (∀ k, k < MAX_TOOL_ITERATIONS → extractToolCall env.parse (env.script k) = none →
      (∀ i, i < k → (extractToolCall env.parse (env.script i)).isSome = true) →
      (chat env input).result = .ok (env.script k) ∧
      (chat env input).modelCalls = k + 1) := by
  constructor
  · intro h
    have key := chatLoop_all_tool_steps env MAX_TOOL_ITERATIONS 0
      [⟨.user, input⟩] [.message .user input] 0 0
      (by intro i hi; simpa using h i hi)
    have h2 : (chat env input).modelCalls = 0 + MAX_TOOL_ITERATIONS := key.2
    exact ⟨key.1, by rw [h2, Nat.zero_add]⟩
  · intro k hk hnone hall
    have key := chatLoop_stops_at env k 0 MAX_TOOL_ITERATIONS
      [⟨.user, input⟩] [.message .user input] 0 0 hk
      (by simpa using hnone)
      (by intro i hi; simpa using hall i hi)
    have h1 : (chat env input).result = .ok (env.script (0 + k)) := key.1
    have h2 : (chat env input).modelCalls = 0 + k + 1 := key.2
    exact ⟨by rw [h1, Nat.zero_add], by rw [h2, Nat.zero_add]⟩

/-- Witness for C1: a backend that always answers with a tool call drives
the turn into the `InvalidState` failure after 10 model calls. -/
theorem chat_loop_bound_witness :
    (chat envLoop (str "hi")).result
        = .error (.invalidState (str "exceeded maximum tool iterations")) ∧
    (chat envLoop (str "hi")).modelCalls = MAX_TOOL_ITERATIONS :=
  (chat_loop_bound envLoop (str "hi")).1 (by decide)

-- ---------------------------------------------------------------------------
-- C2: denied capabilities are data to the model, not control flow
-- ---------------------------------------------------------------------------

/-- C2: when the synthesized capability request of a registered tool is
denied by the policy, `call_tool` returns the `CapabilityDenied` failure
without invoking the underlying server (the `false` component); the loop
step delivers the denial back to the model as the tool-result failure
text inside the next user message and simply continues (the server-call
count is unchanged); and the caller of `chat` never receives the denial
as an error. -/
theorem denied_capability_is_tool_result (env : ChatEnv) (step r : Nat)
    (msgs : List Message) (evs : List SessionEvent) (mc sc : Nat)
    (tc : ToolCallP) (reason : List Char)
    (hreg : env.registered.contains tc.name = true)
    (hdeny : env.policy.check (toolCapability tc.name tc.args) = .deny reason)
    (hext : extractToolCall env.parse (env.script step) = some tc) :
    callTool env tc.name tc.args = (.error (.capabilityDenied reason), false) ∧
    chatLoop env step (r + 1) msgs evs mc sc =
      chatLoop env (step + 1) r
        (msgs ++ [⟨.assistant, env.script step⟩,
          ⟨.user, str "<tool_result>\nError: capability denied: " ++ reason
            ++ str "\n</tool_result>"⟩])
        (evs ++ [.toolRequested, .toolFailed]) (mc + 1) sc ∧
    ∀ input, (chat env input).result ≠ .error (.capabilityDenied reason) := by
  have hcall : callTool env tc.name tc.args = (.error (.capabilityDenied reason), false) := by
    simp only [callTool, hreg, if_true, hdeny]
  have hexec : executeToolCall env tc = (str "Error: capability denied: " ++ reason, false) := by
    simp only [executeToolCall, hcall, RtError.render]
    have hlit : str "Error: " ++ str "capability denied: "
        = str "Error: capability denied: " := by decide
    rw [← List.append_assoc, hlit]
  have hev : toolEvents env tc = [.toolRequested, .toolFailed] := by
    simp only [toolEvents, hcall]
  have hexec1 : (executeToolCall env tc).1 = str "Error: capability denied: " ++ reason := by
    rw [hexec]
  have hexec2 : (executeToolCall env tc).2 = false := by rw [hexec]
  refine ⟨hcall, ?_, ?_⟩
  · rw [chatLoop_tool_step env step r msgs evs mc sc tc hext, hexec1, hexec2, hev]
    have hlit2 : str "<tool_result>\n" ++ str "Error: capability denied: "
        = str "<tool_result>\nError: capability denied: " := by decide
    rw [← List.append_assoc (str "<tool_result>\n") (str "Error: capability denied: ") reason,
      hlit2]
    simp
  · intro input hcontra
    rcases chatLoop_result_shape env MAX_TOOL_ITERATIONS 0
        [⟨.user, input⟩] [.message .user input] 0 0 with hsh | ⟨t, hsh⟩
    · have hsh' : (chat env input).result
          = .error (.invalidState (str "exceeded maximum tool iterations")) := hsh
      rw [hcontra] at hsh'
      simp at hsh'
    · have hsh' : (chat env input).result = .ok t := hsh
      rw [hcontra] at hsh'
      simp at hsh'

/-- Witness for C2: the tool `t` is registered, the policy denies exec
outright, and `call_tool` returns the denial without a server call. -/
theorem denied_capability_is_tool_result_witness :
    envDeny.registered.contains (str "t") = true ∧
    envDeny.policy.check (toolCapability (str "t") none) = .deny (denyOutrightReason .exec) ∧
    callTool envDeny (str "t") none
      = (.error (.capabilityDenied (denyOutrightReason .exec)), false) :=
  ⟨by decide, by decide,
    (denied_capability_is_tool_result envDeny 0 0 [] [] 0 0 ⟨str "t", none⟩
      (denyOutrightReason .exec) (by decide) (by decide) (by decide)).1⟩

-- ---------------------------------------------------------------------------
-- C10: malformed tool-call markup is a final answer
-- ---------------------------------------------------------------------------

/-- C10: when the assistant response holds no `<tool_call>` marker, no
`</tool_call>` marker, a closing marker not after the opening one, or a
delimited span that does not parse to a JSON object with a string name,
`extract_tool_call` returns `None` and `chat` treats the response as the
final answer: the text is appended to history and returned with no
error. -/
theorem malformed_tool_call_is_final_answer (env : ChatEnv) (input : List Char) :
    (findSub (env.script 0) TOOL_CALL_START = none ∨
     findSub (env.script 0) TOOL_CALL_END = none ∨
     (∀ s e, findSub (env.script 0) TOOL_CALL_START = some s →
        findSub (env.script 0) TOOL_CALL_END = some e → e ≤ s) ∨
     (∀ s e, findSub (env.script 0) TOOL_CALL_START = some s →
        findSub (env.script 0) TOOL_CALL_END = some e → s < e →
        env.parse (trimList (spanSlice (env.script 0) s e)) = none)) →
    extractToolCall env.parse (env.script 0) = none ∧
    (chat env input).result = .ok (env.script 0) ∧
    (chat env input).messages = [⟨.user, input⟩, ⟨.assistant, env.script 0⟩] ∧
    (chat env input).events = [.message .user input, .message .assistant (env.script 0)] := by
  intro h
  have hnone : extractToolCall env.parse (env.script 0) = none := by
    cases hs : findSub (env.script 0) TOOL_CALL_START with
    | none => simp [extractToolCall, hs]
    | some s =>
      cases he : findSub (env.script 0) TOOL_CALL_END with
      | none => simp [extractToolCall, hs, he]
      | some e =>
        rcases h with h1 | h2 | h3 | h4
        · rw [hs] at h1; exact absurd h1 (by simp)
        · rw [he] at h2; exact absurd h2 (by simp)
        · simp [extractToolCall, hs, he, h3 s e hs he]
        · by_cases hle : e ≤ s
          · simp [extractToolCall, hs, he, hle]
          · simp [extractToolCall, hs, he, hle, h4 s e hs he (by omega)]
  have hfinal := chatLoop_final_step env 0 9 [⟨.user, input⟩] [.message .user input] 0 0 hnone
  have hc : chat env input =
      ⟨.ok (env.script 0), [⟨.user, input⟩] ++ [⟨.assistant, env.script 0⟩],
        [.message .user input] ++ [.message .assistant (env.script 0)], 0 + 1, 0⟩ := hfinal
  rw [hc]
  exact ⟨hnone, rfl, rfl, rfl⟩

/-- Witness for C10: a response with no markers at all is returned as the
final answer. -/
theorem malformed_tool_call_is_final_answer_witness :
    findSub (envPlain.script 0) TOOL_CALL_START = none ∧
    (chat envPlain (str "hi")).result = .ok (str "hello") ∧
    (chat envPlain (str "hi")).messages
      = [⟨.user, str "hi"⟩, ⟨.assistant, str "hello"⟩] := by
  have h := malformed_tool_call_is_final_answer envPlain (str "hi") (.inl (by decide))
  exact ⟨by decide, h.2.1, h.2.2.1⟩

-- ---------------------------------------------------------------------------
-- C9: SessionId round-trips through its string form
-- ---------------------------------------------------------------------------

-- Sanity examples: the four input shapes the uuid parser accepts, and a
-- rejected string.

example : parseUuid (str "00000000-0000-0000-0000-000000000001") = some 1 := by decide

example : parseUuid (str "936DA01F9ABD4D9D80C702AF85C822A8")
    = parseUuid (str "936da01f-9abd-4d9d-80c7-02af85c822a8") := by decide

example : (parseUuid (str "936DA01F9ABD4D9D80C702AF85C822A8")).isSome = true := by decide

example : parseUuid (str "\x7b00000000-0000-0000-0000-000000000001\x7d") = some 1 := by decide

example : parseUuid (str "urn:uuid:00000000-0000-0000-0000-000000000001") = some 1 := by decide

example : parseUuid (str "not-a-uuid") = none := by decide

/-- A hex digit below 16 survives the encode-decode pair. -/
theorem hexVal_hexChar : ∀ d, d < 16 → hexVal (hexChar d) = some d := by decide

/-- Reading back `k` hex digits written for a value below `16 ^ k` yields
the value (shifted into the accumulator) and the untouched remainder. -/
theorem readHex_toHex (k : Nat) : ∀ (acc n : Nat), n < 16 ^ k →
    ∀ rest : List Char, readHex acc k (toHex n k ++ rest) = some (acc * 16 ^ k + n, rest) := by
  induction k with
  | zero =>
    intro acc n hn rest
    have hn0 : n = 0 := Nat.lt_one_iff.mp (by simpa using hn)
    subst hn0
    simp [toHex, readHex]
  | succ k ih =>
    intro acc n hn rest
    have hd : n / 16 ^ k < 16 := by
      apply Nat.div_lt_of_lt_mul
      calc n < 16 ^ (k + 1) := hn
        _ = 16 ^ k * 16 := by rw [pow_succ]
    simp only [toHex, List.cons_append, readHex, hexVal_hexChar _ hd, List.append_eq]
    rw [ih (acc * 16 + n / 16 ^ k) (n % 16 ^ k) (Nat.mod_lt _ (by positivity)) rest]
    congr 2
    calc (acc * 16 + n / 16 ^ k) * 16 ^ k + n % 16 ^ k
        = acc * (16 ^ k * 16) + (16 ^ k * (n / 16 ^ k) + n % 16 ^ k) := by ring
      _ = acc * 16 ^ (k + 1) + n := by rw [Nat.div_add_mod, pow_succ]

/-- A run of hex digits can be read in two stages: the first `j` digits
extend the accumulator, the remaining `k` continue on the rest. -/
theorem readHex_split (j : Nat) : ∀ (k acc n : Nat), n < 16 ^ j →
    ∀ rest : List Char,
      readHex acc (j + k) (toHex n j ++ rest) = readHex (acc * 16 ^ j + n) k rest := by
  induction j with
  | zero =>
    intro k acc n hn rest
    have hn0 : n = 0 := Nat.lt_one_iff.mp (by simpa using hn)
    subst hn0
    simp [toHex]
  | succ j ih =>
    intro k acc n hn rest
    have hd : n / 16 ^ j < 16 := by
      apply Nat.div_lt_of_lt_mul
      calc n < 16 ^ (j + 1) := hn
        _ = 16 ^ j * 16 := by rw [pow_succ]
    have hkk : (j + 1) + k = (j + k) + 1 := by omega
    rw [hkk]
    simp only [toHex, List.cons_append, readHex, hexVal_hexChar _ hd, List.append_eq]
    rw [ih k (acc * 16 + n / 16 ^ j) (n % 16 ^ j) (Nat.mod_lt _ (by positivity)) rest]
    congr 1
    calc (acc * 16 + n / 16 ^ j) * 16 ^ j + n % 16 ^ j
        = acc * (16 ^ j * 16) + (16 ^ j * (n / 16 ^ j) + n % 16 ^ j) := by ring
      _ = acc * 16 ^ (j + 1) + n := by rw [Nat.div_add_mod, pow_succ]

/-- Reassembling the five hyphen-separated groups of a 128-bit value
recovers the value. -/
theorem uuid_recompose (n : Nat) (hn : n < 2 ^ 128) :
    (((n / 16 ^ 24 * 16 ^ 4 + n / 16 ^ 20 % 16 ^ 4) * 16 ^ 4 + n / 16 ^ 16 % 16 ^ 4) * 16 ^ 4
        + n / 16 ^ 12 % 16 ^ 4) * 16 ^ 12 + n % 16 ^ 12 = n := by
  norm_num at hn ⊢
  omega

/-- The displayed (hyphenated) form is rejected by the simple-form reader:
its ninth character is a dash, not a hex digit. -/
theorem readHex32_displayUuid (n : Nat) (hn : n < 2 ^ 128) :
    readHex 0 32 (displayUuid n) = none := by
  have hn' : n < 16 ^ 32 := by norm_num at hn ⊢; exact hn
  have h1 : n / 16 ^ 24 < 16 ^ 8 := by
    apply Nat.div_lt_of_lt_mul
    calc n < 16 ^ 32 := hn'
      _ = 16 ^ 24 * 16 ^ 8 := by norm_num
  unfold displayUuid
  rw [show (32 : Nat) = 8 + 24 from rfl, readHex_split 8 24 0 (n / 16 ^ 24) h1]
  simp [readHex, show hexVal '-' = none from by decide]

/-- The hyphenated reader consumes the displayed form completely and
recovers the value. -/
theorem readHyphenated_displayUuid (n : Nat) (hn : n < 2 ^ 128) :
    readHyphenated (displayUuid n) = some (n, []) := by
  have hn' : n < 16 ^ 32 := by norm_num at hn ⊢; exact hn
  have h1 : n / 16 ^ 24 < 16 ^ 8 := by
    apply Nat.div_lt_of_lt_mul
    calc n < 16 ^ 32 := hn'
      _ = 16 ^ 24 * 16 ^ 8 := by norm_num
  have h2 : n / 16 ^ 20 % 16 ^ 4 < 16 ^ 4 := Nat.mod_lt _ (by positivity)
  have h3 : n / 16 ^ 16 % 16 ^ 4 < 16 ^ 4 := Nat.mod_lt _ (by positivity)
  have h4 : n / 16 ^ 12 % 16 ^ 4 < 16 ^ 4 := Nat.mod_lt _ (by positivity)
  have h5 : n % 16 ^ 12 < 16 ^ 12 := Nat.mod_lt _ (by positivity)
  unfold displayUuid readHyphenated
  rw [readHex_toHex 8 0 (n / 16 ^ 24) h1]
  simp only [Option.some_bind, expectDash, Nat.zero_mul, Nat.zero_add]
  rw [readHex_toHex 4 (n / 16 ^ 24) (n / 16 ^ 20 % 16 ^ 4) h2]
  simp only [Option.some_bind, expectDash]
  rw [readHex_toHex 4 (n / 16 ^ 24 * 16 ^ 4 + n / 16 ^ 20 % 16 ^ 4) (n / 16 ^ 16 % 16 ^ 4) h3]
  simp only [Option.some_bind, expectDash]
  rw [readHex_toHex 4
    ((n / 16 ^ 24 * 16 ^ 4 + n / 16 ^ 20 % 16 ^ 4) * 16 ^ 4 + n / 16 ^ 16 % 16 ^ 4)
    (n / 16 ^ 12 % 16 ^ 4) h4]
  simp only [Option.some_bind, expectDash]
  rw [← List.append_nil (toHex (n % 16 ^ 12) 12), readHex_toHex 12
    (((n / 16 ^ 24 * 16 ^ 4 + n / 16 ^ 20 % 16 ^ 4) * 16 ^ 4 + n / 16 ^ 16 % 16 ^ 4) * 16 ^ 4
      + n / 16 ^ 12 % 16 ^ 4)
    (n % 16 ^ 12) h5]
  rw [uuid_recompose n hn]

/-- Round trip: parsing the displayed form of any 128-bit value yields the
value back (the simple-form alternative fails, the hyphenated one
succeeds). -/
theorem parseUuid_displayUuid (n : Nat) (hn : n < 2 ^ 128) :
    parseUuid (displayUuid n) = some n := by
  have hs : readHex 0 32 (displayUuid n) = none := readHex32_displayUuid n hn
  have hh : readHyphenated (displayUuid n) = some (n, []) := readHyphenated_displayUuid n hn
  unfold parseUuid
  rw [hs, hh]
  simp [exactly]

/-- A successful `expectDash` consumed exactly one leading dash. -/
theorem expectDash_sound {r r' : List Char} (h : expectDash r = some r') : r = '-' :: r' := by
  cases r with
  | nil => simp [expectDash] at h
  | cons c cs =>
    by_cases hc : c = '-'
    · subst hc
      have h' : some cs = some r' := by simpa [expectDash] using h
      rw [Option.some.inj h']
    · simp [expectDash, hc] at h

/-- A successful `readHex` consumed exactly `k` hex digits. -/
theorem readHex_sound (k : Nat) : ∀ (acc v : Nat) (cs rest : List Char),
    readHex acc k cs = some (v, rest) →
    ∃ pre, cs = pre ++ rest ∧ pre.length = k ∧ ∀ c ∈ pre, (hexVal c).isSome = true := by
  induction k with
  | zero =>
    intro acc v cs rest h
    simp only [readHex, Option.some.injEq, Prod.mk.injEq] at h
    exact ⟨[], by simp [h.2], rfl, by simp⟩
  | succ k ih =>
    intro acc v cs rest h
    cases cs with
    | nil => simp [readHex] at h
    | cons c cs' =>
      cases hv : hexVal c with
      | none => simp [readHex, hv] at h
      | some d =>
        simp only [readHex, hv] at h
        obtain ⟨pre, hpre, hlen, hall⟩ := ih (acc * 16 + d) v cs' rest h
        refine ⟨c :: pre, by simp [hpre], by simp [hlen], ?_⟩
        intro x hx
        rcases List.mem_cons.mp hx with rfl | hx
        · simp [hv]
        · exact hall x hx

/-- A successful `exactly` had consumed the whole input. -/
theorem exactly_sound {p : Option (Nat × List Char)} {v : Nat} (h : exactly p = some v) :
    p = some (v, []) := by
  unfold exactly at h
  cases p with
  | none => simp at h
  | some q =>
    obtain ⟨w, r⟩ := q
    simp only [Option.some_bind] at h
    cases r with
    | nil =>
      simp only [List.isEmpty_nil, if_true, Option.some.injEq] at h
      rw [h]
    | cons x xs => simp at h

/-- A successful `readHyphenated` consumed exactly a hyphenated UUID
body. -/
theorem readHyphenated_sound (s : List Char) (v : Nat) (rest : List Char)
    (h : readHyphenated s = some (v, rest)) :
    ∃ t, s = t ++ rest ∧ IsUuidShape t := by
  unfold readHyphenated at h
  cases hr1 : readHex 0 8 s with
  | none => rw [hr1] at h; simp at h
  | some p₁ =>
  rw [hr1] at h
  obtain ⟨v₁, r₁⟩ := p₁
  simp only [Option.some_bind] at h
  cases hd1 : expectDash r₁ with
  | none => rw [hd1] at h; simp at h
  | some q₁ =>
  rw [hd1] at h
  simp only [Option.some_bind] at h
  cases hr2 : readHex v₁ 4 q₁ with
  | none => rw [hr2] at h; simp at h
  | some p₂ =>
  rw [hr2] at h
  obtain ⟨v₂, r₂⟩ := p₂
  simp only [Option.some_bind] at h
  cases hd2 : expectDash r₂ with
  | none => rw [hd2] at h; simp at h
  | some q₂ =>
  rw [hd2] at h
  simp only [Option.some_bind] at h
  cases hr3 : readHex v₂ 4 q₂ with
  | none => rw [hr3] at h; simp at h
  | some p₃ =>
  rw [hr3] at h
  obtain ⟨v₃, r₃⟩ := p₃
  simp only [Option.some_bind] at h
  cases hd3 : expectDash r₃ with
  | none => rw [hd3] at h; simp at h
  | some q₃ =>
  rw [hd3] at h
  simp only [Option.some_bind] at h
  cases hr4 : readHex v₃ 4 q₃ with
  | none => rw [hr4] at h; simp at h
  | some p₄ =>
  rw [hr4] at h
  obtain ⟨v₄, r₄⟩ := p₄
  simp only [Option.some_bind] at h
  cases hd4 : expectDash r₄ with
  | none => rw [hd4] at h; simp at h
  | some q₄ =>
  rw [hd4] at h
  simp only [Option.some_bind] at h
  obtain ⟨a, hsa, hal, hahex⟩ := readHex_sound 8 0 v₁ s r₁ hr1
  obtain ⟨b, hsb, hbl, hbhex⟩ := readHex_sound 4 v₁ v₂ q₁ r₂ hr2
  obtain ⟨c, hsc, hcl, hchex⟩ := readHex_sound 4 v₂ v₃ q₂ r₃ hr3
  obtain ⟨d, hsd, hdl, hdhex⟩ := readHex_sound 4 v₃ v₄ q₃ r₄ hr4
  obtain ⟨e, hse, hel, hehex⟩ := readHex_sound 12 v₄ v q₄ rest h
  refine ⟨a ++ '-' :: (b ++ '-' :: (c ++ '-' :: (d ++ '-' :: e))), ?_,
    a, b, c, d, e, rfl, hal, hbl, hcl, hdl, hel, ?_⟩
  · rw [hsa, expectDash_sound hd1, hsb, expectDash_sound hd2, hsc, expectDash_sound hd3,
      hsd, expectDash_sound hd4, hse]
    simp
  · intro x hx
    rcases List.mem_append.mp hx with hx₁ | hxe
    · rcases List.mem_append.mp hx₁ with hx₂ | hxd
      · rcases List.mem_append.mp hx₂ with hx₃ | hxc
        · rcases List.mem_append.mp hx₃ with hxa | hxb
          · exact hahex x hxa
          · exact hbhex x hxb
        · exact hchex x hxc
      · exact hdhex x hxd
    · exact hehex x hxe

/-- A successful `parseBraced` input was a braced hyphenated UUID. -/
theorem parseBraced_sound (s : List Char) (v : Nat) (h : parseBraced s = some v) :
    IsBracedShape s := by
  cases s with
  | nil => simp [parseBraced] at h
  | cons c rest =>
    by_cases hc : c = '{'
    · subst hc
      simp only [parseBraced] at h
      cases hr : readHyphenated rest with
      | none => rw [hr] at h; simp at h
      | some p =>
        rw [hr] at h
        obtain ⟨w, r⟩ := p
        simp only [Option.some_bind] at h
        by_cases he : r = ['}']
        · subst he
          obtain ⟨t, hst, hshape⟩ := readHyphenated_sound rest w ['}'] hr
          exact ⟨t, by rw [hst], hshape⟩
        · simp [he] at h
    · simp [parseBraced, hc] at h

/-- A successful `parseUrn` input was an urn-prefixed hyphenated UUID. -/
theorem parseUrn_sound (s : List Char) (v : Nat) (h : parseUrn s = some v) :
    IsUrnShape s := by
  unfold parseUrn at h
  by_cases hp : urnPrefix.isPrefixOf s
  · rw [if_pos hp] at h
    obtain ⟨t, ht⟩ := List.isPrefixOf_iff_prefix.mp hp
    have h9 : (9 : Nat) = urnPrefix.length := rfl
    have hdrop : s.drop 9 = t := by
      rw [← ht, h9, List.drop_left]
    rw [hdrop] at h
    have hr : readHyphenated t = some (v, []) := exactly_sound h
    obtain ⟨u, htu, hshape⟩ := readHyphenated_sound t v [] hr
    rw [List.append_nil] at htu
    subst htu
    exact ⟨t, ht.symm, hshape⟩
  · rw [if_neg hp] at h
    simp at h

/-- Parsing succeeds only on strings of one of the four accepted UUID
shapes. -/
theorem parseUuid_shape (s : List Char) (v : Nat) (h : parseUuid s = some v) :
    IsUuidString s := by
  unfold parseUuid at h
  cases hsim : exactly (readHex 0 32 s) with
  | some w =>
    have h32 : readHex 0 32 s = some (w, []) := exactly_sound hsim
    obtain ⟨pre, hpre, hlen, hhex⟩ := readHex_sound 32 0 w s [] h32
    rw [List.append_nil] at hpre
    subst hpre
    exact .inl ⟨hlen, hhex⟩
  | none =>
    rw [hsim] at h
    cases hhyp : exactly (readHyphenated s) with
    | some w =>
      have hr : readHyphenated s = some (w, []) := exactly_sound hhyp
      obtain ⟨t, hst, hshape⟩ := readHyphenated_sound s w [] hr
      rw [List.append_nil] at hst
      subst hst
      exact .inr (.inl hshape)
    | none =>
      rw [hhyp] at h
      cases hbr : parseBraced s with
      | some w => exact .inr (.inr (.inl (parseBraced_sound s w hbr)))
      | none =>
        rw [hbr] at h
        exact .inr (.inr (.inr (parseUrn_sound s v h)))

/-- A hyphenated UUID string has exactly 36 characters. -/
theorem isUuidShape_length {s : List Char} (h : IsUuidShape s) : s.length = 36 := by
  obtain ⟨a, b, c, d, e, rfl, ha, hb, hc, hd, he, -⟩ := h
  simp [ha, hb, hc, hd, he]

/-- An accepted UUID string has one of the four shape lengths. -/
theorem isUuidString_length {s : List Char} (h : IsUuidString s) :
    s.length = 32 ∨ s.length = 36 ∨ s.length = 38 ∨ s.length = 45 := by
  rcases h with hs | hh | hb | hu
  · exact .inl hs.1
  · exact .inr (.inl (isUuidShape_length hh))
  · obtain ⟨t, rfl, ht⟩ := hb
    have h36 := isUuidShape_length ht
    refine .inr (.inr (.inl ?_))
    simp [h36]
  · obtain ⟨t, rfl, ht⟩ := hu
    have h36 := isUuidShape_length ht
    have h9 : urnPrefix.length = 9 := rfl
    refine .inr (.inr (.inr ?_))
    simp [List.length_append, h9, h36]

/-- C9: `SessionId` round-trips through its string form — displaying any
128-bit UUID value and parsing the string back yields the same value —
and every string that is not a valid UUID (none of the four accepted
shapes: simple, hyphenated, braced, urn) parses to an error rather than
a `SessionId`. -/
theorem session_id_roundtrip (n : Nat) (s : List Char) :
    (n < 2 ^ 128 → parseUuid (displayUuid n) = some n) ∧
    (¬ IsUuidString s → parseUuid s = none) := by
  refine ⟨parseUuid_displayUuid n, fun hns => ?_⟩
  cases hp : parseUuid s with
  | none => rfl
  | some v => exact absurd (parseUuid_shape s v hp) hns

/-- Witness for C9: a concrete value round-trips, and the string
`"not-a-uuid"` (from the storage unit test) parses to an error. -/
theorem session_id_roundtrip_witness :
    (123456789 : Nat) < 2 ^ 128 ∧
    parseUuid (displayUuid 123456789) = some 123456789 ∧
    ¬ IsUuidString (str "not-a-uuid") ∧
    parseUuid (str "not-a-uuid") = none := by
  have hns : ¬ IsUuidString (str "not-a-uuid") := by
    intro hsh
    have hl := isUuidString_length hsh
    have h10 : (str "not-a-uuid").length = 10 := rfl
    rw [h10] at hl
    rcases hl with h | h | h | h <;> omega
  exact ⟨by norm_num,
    (session_id_roundtrip 123456789 (str "not-a-uuid")).1 (by norm_num),
    hns,
    (session_id_roundtrip 123456789 (str "not-a-uuid")).2 hns⟩

end Bosun
